import Mathlib

/-!
# Verification of the GRMP test-suite orchestrator

A shallow embedding of `src/orchestrator.py` (class `TestOrchestrator`).
Python dictionaries are modelled as association lists over `String` keys,
with assignment (`d[k] = v`) as `upsert` (replace in place when the key is
present, append otherwise — matching CPython's insertion-order semantics),
lookup (`d.get(k)`) as `alookup`, and `unlink` as `adelete`.  The reports
directory is an association list from file names to file contents; the
Docker collaborator is an oracle parameter.  Suites inside a JUnit artifact
are abstracted to an arbitrary type `α`.
-/

namespace Grmp

/-- A YAML scalar configuration value, with Python's `str()` behaviour. -/
inductive Val where
| str (s : String)
| int (n : Int)
| bool (b : Bool)
deriving DecidableEq, Repr

/-- Python `str(value)` on the scalar values we model. -/
def Val.stringify : Val → String
| .str s => s
| .int n => toString n
| .bool b => if b then "True" else "False"

/-- Python's `key.upper()` on the ASCII keys we model: uppercase every
character.  (Defined over the character list so the kernel can evaluate
it.) -/
def pyUpper (s : String) : String := String.mk (s.data.map Char.toUpper)

/-- `d.get(k)`: first value bound to `k` in the association list. -/
def alookup {α : Type} : List (String × α) → String → Option α
| [], _ => none
| p :: m, k => if p.1 = k then some p.2 else alookup m k

/-- `d[k] = v`: replace in place when the key is present, else append.
This is CPython's dict-assignment semantics (insertion order kept). -/
def upsert {α : Type} (m : List (String × α)) (k : String) (v : α) : List (String × α) :=
if m.any (fun p => decide (p.1 = k)) then
  m.map (fun p => if p.1 = k then (k, v) else p)
else
  m ++ [(k, v)]

/-- `path.unlink()`: remove the binding for `k`. -/
def adelete {α : Type} (m : List (String × α)) (k : String) : List (String × α) :=
m.filter (fun p => decide (p.1 ≠ k))

/-- One test declaration as it appears under the `tests:` key of a YAML
file: the value of its `image` key (absent when not declared) and its
`config` sub-mapping (absent when not declared). -/
structure TestDecl where
  image : Option String
  config : Option (List (String × Val))
deriving DecidableEq, Repr

/-- One discovered YAML file: its path and, when the loaded document is
truthy and has a `tests` key, the declarations in order.  `tests = none`
models `if not config or "tests" not in config: continue`. -/
structure ConfigSource where
  path : String
  tests : Option (List (String × TestDecl))
deriving DecidableEq, Repr

/-- Occurrence counts per original test name (`test_name_counts`). -/
def Counts := List (String × Nat)

/-- The body of the per-declaration work in `load_all_configs`: compute the
(possibly renamed) final name, the provenance-tagged test data, and the
updated occurrence counts. -/
def declEntry (path : String) (counts : List (String × Nat)) (decl : String × TestDecl) :
    (String × TestDecl) × List (String × Nat) :=
  let count := (alookup counts decl.1).getD 0
  let finalName := if count > 0 then decl.1 ++ "-" ++ toString (count + 1) else decl.1
  let td : TestDecl :=
    { decl.2 with config := some (upsert (decl.2.config.getD []) "source_file" (Val.str path)) }
  ((finalName, td), upsert counts decl.1 (count + 1))

/-- `load_all_configs` (orchestrator.py lines 70–109): fold every
declaration of every source, in order, into the combined `tests` mapping,
renaming the entry to `name-(count+1)` when `name` was already seen
`count > 0` times, tagging provenance, and assigning into the combined
dict.  The sources list stands for the lexicographically sorted YAML
files. -/
def load_all_configs (sources : List ConfigSource) : List (String × TestDecl) :=
  (sources.foldl (fun st src =>
    match src.tests with
    | none => st
    | some decls =>
      decls.foldl (fun st d =>
        let r := declEntry src.path st.1 d
        (r.2, upsert st.2 r.1.1 r.1.2)) st)
    (([] : List (String × Nat)), ([] : List (String × TestDecl)))).2

/-- The stream of (origin path, declaration) pairs that `load_all_configs`
iterates over, in processing order: sources in sorted order, declarations
in declared order, sources without a `tests` section skipped. -/
def flatDecls : List ConfigSource → List (String × String × TestDecl)
| [] => []
| src :: rest =>
  (match src.tests with
   | none => []
   | some ds => ds.map (fun d => (src.path, d))) ++ flatDecls rest

/-- Total number of test declarations, summed over all sources. -/
def totalDecls (sources : List ConfigSource) : Nat :=
  (sources.map (fun src => (src.tests.getD []).length)).sum

/-- The collision-resolved entries in processing order: each declaration
with its final name (`name` on first occurrence, `name-(k+1)` after `k`
prior occurrences of `name`) and its provenance-tagged data.  This is what
the merged manifest holds when dict assignment never overwrites. -/
def entriesFlat : List (String × Nat) → List (String × String × TestDecl) →
    List (String × TestDecl)
| _, [] => []
| counts, it :: rest =>
  (declEntry it.1 counts it.2).1 :: entriesFlat (declEntry it.1 counts it.2).2 rest

/-- The collision-resolved entries of a source list, from empty counts. -/
def collisionEntries (sources : List ConfigSource) : List (String × TestDecl) :=
  entriesFlat [] (flatDecls sources)

/-- One iteration of the environment-projection loop of `run_test`
(lines 139–143): send `source_file` to `SPECIAL_SOURCE_FILE`, drop
`image`, prefix every other key with `TEST_` after uppercasing. -/
def envStep (env : List (String × String)) (p : String × Val) : List (String × String) :=
  if p.1 = "source_file" then upsert env "SPECIAL_SOURCE_FILE" p.2.stringify
  else if p.1 = "image" then env
  else upsert env ("TEST_" ++ pyUpper p.1) p.2.stringify

/-- The environment of `run_test` (lines 134–143): start from
`{TS_NAME: name}` and fold the config mapping through `envStep`. -/
def buildEnv (name : String) (cfg : List (String × Val)) : List (String × String) :=
  cfg.foldl envStep [("TS_NAME", name)]

/-- The environment entries the spec's projection rule prescribes, one per
non-`image` config key, in config order. -/
def projList (cfg : List (String × Val)) : List (String × String) :=
  cfg.filterMap (fun p =>
    if p.1 = "source_file" then some ("SPECIAL_SOURCE_FILE", p.2.stringify)
    else if p.1 = "image" then none
    else some ("TEST_" ++ pyUpper p.1, p.2.stringify))

/-- Contents of one file in the reports directory: a parseable JUnit
document with its list of suites, or a document `JUnitXml.fromfile`
rejects. -/
inductive FileData (α : Type) where
| parseable (suites : List α)
| malformed
deriving DecidableEq, Repr

/-- Exit status reported by the container collaborator. -/
inductive ContStatus where
| success
| containerError (code : Nat)
| infraFault
deriving DecidableEq, Repr

/-- What one `client.containers.run` call did: the files it wrote into the
mounted reports directory, and its status. -/
structure ContOutcome (α : Type) where
  writes : List (String × FileData α)
  status : ContStatus

/-- The external Docker collaborator: from image and environment to an
outcome. -/
def Oracle (α : Type) : Type := String → List (String × String) → ContOutcome α

/-- The errors a single `run_test` call can raise (lines 126, 187–193). -/
inductive TErr where
| missingImage (name : String)
| containerFailure (code : Nat)
| infraError
deriving DecidableEq, Repr

/-- Observable calls `run_test` makes on the collaborator. -/
inductive Action where
| pull (image : String)
| runContainer (image : String) (env : List (String × String))
deriving DecidableEq, Repr

/-- Result of one `run_test` call: the reports directory afterwards, the
returned artifact name or raised error, and the collaborator calls made. -/
structure RTResult (α : Type) where
  fs : List (String × FileData α)
  result : Except TErr String
  actions : List Action

/-- `run_test` (lines 122–193): raise `ValueError` when the image is falsy
(absent or empty), otherwise pull (best effort), build the environment,
run the container (its writes land in the reports directory), and return
`"<name>_report.xml"` on success or re-raise the container error.  The
report-presence check after success only logs, so it is not modelled. -/
def run_test {α : Type} (oracle : Oracle α) (fs : List (String × FileData α))
    (name : String) (image : Option String) (cfg : List (String × Val)) : RTResult α :=
  match image with
  | none => ⟨fs, .error (.missingImage name), []⟩
  | some img =>
    if img = "" then ⟨fs, .error (.missingImage name), []⟩
    else
      let env := buildEnv name cfg
      let out := oracle img env
      let fs' := out.writes.foldl (fun m p => upsert m p.1 p.2) fs
      let acts := [Action.pull img, Action.runContainer img env]
      match out.status with
      | .success => ⟨fs', .ok (name ++ "_report.xml"), acts⟩
      | .containerError c => ⟨fs', .error (.containerFailure c), acts⟩
      | .infraFault => ⟨fs', .error .infraError, acts⟩

/-- State of one `combine_reports` call: the reports directory, the suites
accumulated in `combined`, one warning per report file found absent, and
one log entry per report file whose parse raised. -/
structure CombineResult (α : Type) where
  fs : List (String × FileData α)
  combined : List α
  missingWarnings : List String
  parseErrors : List String

/-- The loop body of `combine_reports` (lines 202–222): skip (with a
warning) an absent file; on a parse failure log and keep the file; on
success merge the suites and delete the file. -/
def combineStep {α : Type} (st : CombineResult α) (f : String) : CombineResult α :=
  match alookup st.fs f with
  | none => { st with missingWarnings := st.missingWarnings ++ [f] }
  | some .malformed => { st with parseErrors := st.parseErrors ++ [f] }
  | some (.parseable suites) =>
    { st with combined := st.combined ++ suites, fs := adelete st.fs f }

/-- `combine_reports` (lines 195–235): fold the report files through
`combineStep`, then write the combined document to
`combined_report.xml` in the reports directory. -/
def combine_reports {α : Type} (fs : List (String × FileData α)) (files : List String) :
    CombineResult α :=
  let st := files.foldl combineStep ⟨fs, [], [], []⟩
  { st with fs := upsert st.fs "combined_report.xml" (.parseable st.combined) }

/-- The suites a file contributes when merged: its suite list when present
and parseable, nothing otherwise. -/
def parseableSuites {α : Type} : Option (FileData α) → List α
| some (.parseable s) => s
| _ => []

/-- Whether a lookup result is a present, parseable artifact. -/
def isParseableFile {α : Type} : Option (FileData α) → Bool
| some (.parseable _) => true
| _ => false

/-- The artifact names collected by `run`'s loop: one per test whose
`run_test` returned normally, in order. -/
def reportFilesOf (results : List (String × Except TErr String)) : List String :=
  results.filterMap (fun p => match p.2 with | .ok f => some f | .error _ => none)

/-- State after `run`'s execution phase: reports directory and the per-test
outcomes in manifest order. -/
structure ExecState (α : Type) where
  fs : List (String × FileData α)
  results : List (String × Except TErr String)

/-- One iteration of `run`'s test loop (lines 258–265): read `image` and
`config` from the test data, call `run_test`, catch any raised error as a
recorded failure, append the outcome. -/
def execStep {α : Type} (oracle : Oracle α) (st : ExecState α) (t : String × TestDecl) :
    ExecState α :=
  let r := run_test oracle st.fs t.1 t.2.image (t.2.config.getD [])
  ⟨r.fs, st.results ++ [(t.1, r.result)]⟩

/-- The `for test_name, test_config in tests.items()` loop of `run`
(lines 257–265): every `run_test` exception is caught and logged, the loop
always proceeds to the next test. -/
def execAll {α : Type} (oracle : Oracle α) (fs : List (String × FileData α))
    (manifest : List (String × TestDecl)) : ExecState α :=
  manifest.foldl (execStep oracle) ⟨fs, []⟩

/-- Fatal errors of `run`: only manifest loading can abort the run. -/
inductive FatalErr where
| noConfigsFound
deriving DecidableEq, Repr

/-- Final state of one orchestrator run: the reports directory, the
per-test outcomes, and the aggregation result (`none` when the
aggregation phase was skipped). -/
structure RunState (α : Type) where
  fs : List (String × FileData α)
  executed : List (String × Except TErr String)
  combined : Option (CombineResult α)

/-- `run` (lines 237–281): load the manifest (no YAML files at all is
fatal — `load_all_configs` raises), return cleanly when it declares no
tests, execute every test catching per-test failures, and combine the
collected artifacts when there are any. -/
def run {α : Type} (oracle : Oracle α) (fs : List (String × FileData α))
    (sources : List ConfigSource) : Except FatalErr (RunState α) :=
  match sources with
  | [] => .error .noConfigsFound
  | s :: ss =>
    let manifest := load_all_configs (s :: ss)
    if manifest.isEmpty then .ok ⟨fs, [], none⟩
    else
      let ex := execAll oracle fs manifest
      let files := reportFilesOf ex.results
      if files.isEmpty then .ok ⟨ex.fs, ex.results, none⟩
      else
        let c := combine_reports ex.fs files
        .ok ⟨c.fs, ex.results, some c⟩

/-! ## Association-list lemmas -/

theorem alookup_append {α : Type} (a b : List (String × α)) (k : String) :
    alookup (a ++ b) k =
      (match alookup a k with
       | some v => some v
       | none => alookup b k) := by
  induction a with
  | nil => simp [alookup]
  | cons p rest ih =>
    by_cases h : p.1 = k
    · simp [alookup, h]
    · simp [alookup, h, ih]

theorem alookup_eq_none_iff {α : Type} (m : List (String × α)) (k : String) :
    alookup m k = none ↔ ∀ p ∈ m, p.1 ≠ k := by
  induction m with
  | nil => simp [alookup]
  | cons p rest ih => by_cases h : p.1 = k <;> simp [alookup, h, ih]

theorem upsert_eq_append {α : Type} (m : List (String × α)) (k : String) (v : α)
    (h : alookup m k = none) : upsert m k v = m ++ [(k, v)] := by
  have h2 : m.any (fun p => decide (p.1 = k)) = false := by
    rw [List.any_eq_false]
    intro p hp
    simpa using (alookup_eq_none_iff m k).1 h p hp
  simp [upsert, h2]

theorem alookup_map_replace_self {α : Type} (m : List (String × α)) (k : String) (v : α)
    (h : ∃ p ∈ m, p.1 = k) :
    alookup (m.map (fun p => if p.1 = k then (k, v) else p)) k = some v := by
  induction m with
  | nil => simp at h
  | cons p rest ih =>
    by_cases hp : p.1 = k
    · simp [alookup, hp]
    · have h2 : ∃ q ∈ rest, q.1 = k := by
        rcases h with ⟨q, hq, hk⟩
        rcases List.mem_cons.1 hq with rfl | hq2
        · exact absurd hk hp
        · exact ⟨q, hq2, hk⟩
      simp [alookup, hp, ih h2]

theorem alookup_map_replace_ne {α : Type} (m : List (String × α)) (k : String) (v : α)
    (k' : String) (h : k' ≠ k) :
    alookup (m.map (fun p => if p.1 = k then (k, v) else p)) k' = alookup m k' := by
  induction m with
  | nil => simp
  | cons p rest ih =>
    have hkk : ¬ k = k' := fun he => h he.symm
    by_cases hp : p.1 = k
    · have hp' : ¬ p.1 = k' := by rw [hp]; exact hkk
      simp [alookup, hp, hp', hkk, ih]
    · simp [alookup, hp, ih]

theorem alookup_upsert_self {α : Type} (m : List (String × α)) (k : String) (v : α) :
    alookup (upsert m k v) k = some v := by
  unfold upsert
  split
  · next hany =>
    apply alookup_map_replace_self
    simpa using hany
  · next hany =>
    rw [alookup_append]
    have h : alookup m k = none := by
      rw [alookup_eq_none_iff]
      intro p hp
      have := List.any_eq_false.1 (Bool.eq_false_iff.2 hany) p hp
      simpa using this
    rw [h]
    simp [alookup]

theorem alookup_upsert_ne {α : Type} (m : List (String × α)) (k : String) (v : α)
    (k' : String) (h : k' ≠ k) :
    alookup (upsert m k v) k' = alookup m k' := by
  unfold upsert
  split
  · exact alookup_map_replace_ne m k v k' h
  · rw [alookup_append]
    have hkk : ¬ k = k' := fun he => h he.symm
    cases hm : alookup m k' <;> simp [alookup, hkk, hm]

theorem mem_upsert {α : Type} {m : List (String × α)} {k : String} {v : α} {p : String × α}
    (h : p ∈ upsert m k v) : p ∈ m ∨ p = (k, v) := by
  unfold upsert at h
  split at h
  · rcases List.mem_map.1 h with ⟨q, hq, he⟩
    by_cases hqk : q.1 = k
    · right
      simp [hqk] at he
      exact he.symm
    · left
      simp [hqk] at he
      rwa [← he]
  · rcases List.mem_append.1 h with h2 | h2
    · exact .inl h2
    · right
      simpa using h2

theorem mem_upsert_key_eq {α : Type} {m : List (String × α)} {k : String} {v : α} :
    ∀ p ∈ upsert m k v, p.1 = k → p.2 = v := by
  intro p hp hk
  unfold upsert at hp
  split at hp
  · rcases List.mem_map.1 hp with ⟨q, hq, he⟩
    by_cases hqk : q.1 = k
    · simp [hqk] at he
      rw [← he]
    · simp [hqk] at he
      rw [← he] at hk
      exact absurd hk hqk
  · next hany =>
    rcases List.mem_append.1 hp with h2 | h2
    · have := List.any_eq_false.1 (Bool.eq_false_iff.2 hany) p h2
      simp at this
      exact absurd hk this
    · simp at h2
      rw [h2]

theorem alookup_upsert_mem {α : Type} (m : List (String × α)) (k : String) (v : α) :
    alookup (upsert m k v) k ≠ none := by
  rw [alookup_upsert_self]
  simp

theorem alookup_adelete_ne {α : Type} (m : List (String × α)) (k k' : String) (h : k' ≠ k) :
    alookup (adelete m k) k' = alookup m k' := by
  induction m with
  | nil => simp [adelete, alookup]
  | cons p rest ih =>
    unfold adelete at ih ⊢
    simp only [decide_not] at ih ⊢
    rw [List.filter_cons]
    by_cases hp : p.1 = k
    · have hp' : ¬ p.1 = k' := by rw [hp]; exact fun he => h he.symm
      have hkk : ¬ k = k' := fun he => h he.symm
      simp [alookup, hp, hp', hkk, ih]
    · by_cases hk : p.1 = k' <;> simp [alookup, hp, hk, ih, h]

theorem alookup_adelete_self {α : Type} (m : List (String × α)) (k : String) :
    alookup (adelete m k) k = none := by
  rw [alookup_eq_none_iff]
  intro p hp
  have := (List.mem_filter.1 hp).2
  simpa using this

theorem foldl_upsert_fresh {α : Type} :
    ∀ (ps acc : List (String × α)), (ps.map Prod.fst).Nodup →
      (∀ k ∈ ps.map Prod.fst, alookup acc k = none) →
      ps.foldl (fun m p => upsert m p.1 p.2) acc = acc ++ ps := by
  intro ps
  induction ps with
  | nil => intro acc _ _; simp
  | cons p rest ih =>
    intro acc hnd hfresh
    have hcons : p.1 ∉ rest.map Prod.fst ∧ (rest.map Prod.fst).Nodup := by
      rw [List.map_cons, List.nodup_cons] at hnd
      exact hnd
    have h1 : alookup acc p.1 = none := hfresh p.1 (by simp)
    have hstep : upsert acc p.1 p.2 = acc ++ [p] :=
      upsert_eq_append acc p.1 p.2 h1
    have hfresh2 : ∀ k ∈ rest.map Prod.fst, alookup (acc ++ [p]) k = none := by
      intro k hk
      rw [alookup_append, hfresh k (by simp [hk])]
      have hne : ¬ p.1 = k := fun he => hcons.1 (he ▸ hk)
      simp [alookup, hne]
    simp only [List.foldl_cons]
    rw [hstep, ih (acc ++ [p]) hcons.2 hfresh2]
    simp

theorem keys_upsert {α : Type} (m : List (String × α)) (k : String) (v : α) :
    (upsert m k v).map Prod.fst =
      if (alookup m k).isNone then m.map Prod.fst ++ [k] else m.map Prod.fst := by
  unfold upsert
  split
  · next hany =>
    have h1 : ¬ alookup m k = none := by
      rw [alookup_eq_none_iff]
      rcases List.any_eq_true.1 hany with ⟨q, hq, hqk⟩
      intro hall
      exact hall q hq (by simpa using hqk)
    rw [if_neg (by simpa using h1), List.map_map]
    apply List.map_congr_left
    intro p _
    by_cases hpk : p.1 = k <;> simp [hpk]
  · next hany =>
    have h1 : alookup m k = none := by
      rw [alookup_eq_none_iff]
      intro p hp
      simpa using List.any_eq_false.1 (Bool.eq_false_iff.2 hany) p hp
    simp [h1]

theorem keys_nodup_upsert {α : Type} (m : List (String × α)) (k : String) (v : α)
    (h : (m.map Prod.fst).Nodup) : ((upsert m k v).map Prod.fst).Nodup := by
  rw [keys_upsert]
  split
  · next hnone =>
    have hnone2 : alookup m k = none := by simpa using hnone
    rw [List.nodup_append]
    refine ⟨h, List.nodup_singleton k, ?_⟩
    intro a ha hb
    simp at hb
    rcases List.mem_map.1 ha with ⟨p, hp, he⟩
    exact (alookup_eq_none_iff m k).1 hnone2 p hp (by rw [he, hb])
  · exact h

theorem keys_foldl_upsert_nodup {α : Type} :
    ∀ (ps acc : List (String × α)), (acc.map Prod.fst).Nodup →
      ((ps.foldl (fun m p => upsert m p.1 p.2) acc).map Prod.fst).Nodup := by
  intro ps
  induction ps with
  | nil => intro acc h; simpa using h
  | cons p rest ih =>
    intro acc h
    exact ih (upsert acc p.1 p.2) (keys_nodup_upsert acc p.1 p.2 h)

theorem mem_foldl_upsert {α : Type} :
    ∀ (ps acc : List (String × α)) (p : String × α),
      p ∈ ps.foldl (fun m q => upsert m q.1 q.2) acc → p ∈ acc ∨ p ∈ ps := by
  intro ps
  induction ps with
  | nil => intro acc p h; exact .inl (by simpa using h)
  | cons q rest ih =>
    intro acc p h
    rcases ih (upsert acc q.1 q.2) p h with h2 | h2
    · rcases mem_upsert h2 with h3 | h3
      · exact .inl h3
      · right
        rw [h3]
        simp
    · right
      exact List.mem_cons_of_mem q h2

theorem nodup_keys_eq {α : Type} :
    ∀ (l : List (String × α)), (l.map Prod.fst).Nodup →
      ∀ {n : String} {a b : α}, (n, a) ∈ l → (n, b) ∈ l → a = b := by
  intro l
  induction l with
  | nil => intro _ n a b ha _; simp at ha
  | cons p rest ih =>
    intro hnd n a b ha hb
    have hmemkey : ∀ c : α, (n, c) ∈ rest → n ∈ rest.map Prod.fst :=
      fun c hc => List.mem_map.2 ⟨(n, c), hc, rfl⟩
    have hnd2 : p.1 ∉ rest.map Prod.fst ∧ (rest.map Prod.fst).Nodup := by
      rw [List.map_cons, List.nodup_cons] at hnd
      exact hnd
    rcases List.mem_cons.1 ha with ha2 | ha2 <;> rcases List.mem_cons.1 hb with hb2 | hb2
    · have h3 : (n, a) = (n, b) := ha2.trans hb2.symm
      simpa using h3
    · exact absurd (hmemkey b hb2) (by rw [← ha2] at hnd2; simpa using hnd2.1)
    · exact absurd (hmemkey a ha2) (by rw [← hb2] at hnd2; simpa using hnd2.1)
    · exact ih hnd2.2 ha2 hb2

/-! ## Manifest loading: flattened view -/

theorem loadAux_eq_flat :
    ∀ (sources : List ConfigSource) (st : List (String × Nat) × List (String × TestDecl)),
      sources.foldl (fun st src =>
        match src.tests with
        | none => st
        | some decls =>
          decls.foldl (fun st d =>
            let r := declEntry src.path st.1 d
            (r.2, upsert st.2 r.1.1 r.1.2)) st) st
      = (flatDecls sources).foldl (fun st it =>
          let r := declEntry it.1 st.1 it.2
          (r.2, upsert st.2 r.1.1 r.1.2)) st := by
  intro sources
  induction sources with
  | nil => intro st; rfl
  | cons src rest ih =>
    intro st
    simp only [flatDecls, List.foldl_cons, List.foldl_append, ih]
    congr 1
    cases src.tests with
    | none => rfl
    | some ds => rw [List.foldl_map]

theorem flat_fold_snd :
    ∀ (items : List (String × String × TestDecl)) (counts : List (String × Nat))
      (m : List (String × TestDecl)),
      ((items.foldl (fun st it =>
          let r := declEntry it.1 st.1 it.2
          (r.2, upsert st.2 r.1.1 r.1.2)) (counts, m)).2 : List (String × TestDecl))
      = (entriesFlat counts items).foldl (fun acc p => upsert acc p.1 p.2) m := by
  intro items
  induction items with
  | nil => intro c m; rfl
  | cons it rest ih =>
    intro c m
    simp only [List.foldl_cons, entriesFlat]
    exact ih _ _

theorem load_all_configs_eq_entries (sources : List ConfigSource) :
    load_all_configs sources =
      (collisionEntries sources).foldl (fun m p => upsert m p.1 p.2) [] := by
  unfold load_all_configs collisionEntries
  rw [loadAux_eq_flat]
  exact flat_fold_snd (flatDecls sources) [] []

theorem entriesFlat_length :
    ∀ (items : List (String × String × TestDecl)) (c : List (String × Nat)),
      (entriesFlat c items).length = items.length := by
  intro items
  induction items with
  | nil => intro c; rfl
  | cons it rest ih => intro c; simp [entriesFlat, ih]

theorem flatDecls_length (sources : List ConfigSource) :
    (flatDecls sources).length = totalDecls sources := by
  induction sources with
  | nil => rfl
  | cons src rest ih =>
    simp only [flatDecls, totalDecls, List.map_cons, List.sum_cons, List.length_append, ih]
    cases src.tests <;> simp [totalDecls]

/-- Claim C1 (amended): provided no generated final name coincides with
any other final name (the renaming scheme produces pairwise-distinct
keys), the merged manifest of `load_all_configs` is exactly the list of
collision-resolved entries: every declaration is present, the occurrence
seen after `k` prior occurrences of its name under the name `name` when
`k = 0` and `name-(k+1)` otherwise, and nothing is dropped or
overwritten.  (The unamended claim fails when a declared name collides
with a generated name, see the counterexample.) -/
theorem c1_collision_entries_kept (sources : List ConfigSource)
    (h : ((collisionEntries sources).map Prod.fst).Nodup) :
    load_all_configs sources = collisionEntries sources := by
  rw [load_all_configs_eq_entries,
    foldl_upsert_fresh (collisionEntries sources) [] h (fun k _ => rfl)]
  simp

/-- Witness for C1: two sources declaring the same test name `a`; the
merged manifest keeps both, the first as `a`, the second as `a-2`, each
tagged with its origin file. -/
theorem c1_collision_entries_kept_witness :
    load_all_configs
        [⟨"f1.yaml", some [("a", ⟨some "imgA", none⟩)]⟩,
         ⟨"f2.yaml", some [("a", ⟨some "imgB", none⟩)]⟩] =
      [("a", ⟨some "imgA", some [("source_file", Val.str "f1.yaml")]⟩),
       ("a-2", ⟨some "imgB", some [("source_file", Val.str "f2.yaml")]⟩)] := by
  rw [c1_collision_entries_kept _ (by decide)]
  decide

/-- Counterexample to C1 as stated: declarations `a` (in `f1.yaml`) and
`a`, `a-2` (in `f2.yaml`).  The second `a` is renamed to `a-2` and then
silently overwritten by the declared `a-2`: the merged manifest has two
entries instead of three and the renamed entry (image `img2`) is gone. -/
theorem c1_counterexample :
    (load_all_configs
        [⟨"f1.yaml", some [("a", ⟨some "img1", none⟩)]⟩,
         ⟨"f2.yaml", some [("a", ⟨some "img2", none⟩), ("a-2", ⟨some "img3", none⟩)]⟩]).length
      = 2
    ∧ ∀ p ∈ load_all_configs
        [⟨"f1.yaml", some [("a", ⟨some "img1", none⟩)]⟩,
         ⟨"f2.yaml", some [("a", ⟨some "img2", none⟩), ("a-2", ⟨some "img3", none⟩)]⟩],
        p.2.image ≠ some "img2" := by
  decide

/-- Claim C4 (amended): provided the collision-resolved final names are
pairwise distinct, the merged manifest's entry count equals the sum over
all sources of the number of test declarations in each source.  (The
unamended claim fails when a declared name collides with a generated
name, see the counterexample.) -/
theorem c4_merged_count (sources : List ConfigSource)
    (h : ((collisionEntries sources).map Prod.fst).Nodup) :
    (load_all_configs sources).length = totalDecls sources := by
  rw [load_all_configs_eq_entries,
    foldl_upsert_fresh (collisionEntries sources) [] h (fun k _ => rfl)]
  simp [collisionEntries, entriesFlat_length, flatDecls_length]

/-- Witness for C4: three declarations across two sources (one name
collision) give a three-entry manifest. -/
theorem c4_merged_count_witness :
    (load_all_configs
        [⟨"g1.yaml", some [("t1", ⟨some "i1", none⟩)]⟩,
         ⟨"g2.yaml", some [("t1", ⟨some "i2", none⟩), ("t2", ⟨some "i3", none⟩)]⟩]).length
      = 3 := by
  rw [c4_merged_count _ (by decide)]
  decide

/-- Counterexample to C4 as stated: sources declaring `x` / `x`, `x-2`
contribute three declarations but the merged manifest has only two
entries (the renamed second `x` is overwritten by the declared `x-2`). -/
theorem c4_counterexample :
    (load_all_configs
        [⟨"h1.yaml", some [("x", ⟨some "j1", none⟩)]⟩,
         ⟨"h2.yaml", some [("x", ⟨some "j2", none⟩), ("x-2", ⟨some "j3", none⟩)]⟩]).length
      = 2
    ∧ totalDecls
        [⟨"h1.yaml", some [("x", ⟨some "j1", none⟩)]⟩,
         ⟨"h2.yaml", some [("x", ⟨some "j2", none⟩), ("x-2", ⟨some "j3", none⟩)]⟩]
      = 3 := by
  decide

/-! ## Environment projection -/

theorem test_prefixed_ne_special (x : String) : ¬ ("TEST_" ++ x = "SPECIAL_SOURCE_FILE") := by
  intro h
  have h2 : ("TEST_" ++ x).data = "SPECIAL_SOURCE_FILE".data := by rw [h]
  rw [String.data_append] at h2
  have h3 : "TEST_".data = ['T', 'E', 'S', 'T', '_'] := rfl
  rw [h3] at h2
  simp at h2

theorem test_prefixed_ne_tsname (x : String) : ¬ ("TEST_" ++ x = "TS_NAME") := by
  intro h
  have h2 : ("TEST_" ++ x).data = "TS_NAME".data := by rw [h]
  rw [String.data_append] at h2
  have h3 : "TEST_".data = ['T', 'E', 'S', 'T', '_'] := rfl
  rw [h3] at h2
  simp at h2

theorem envFold_eq_proj_fold :
    ∀ (cfg : List (String × Val)) (env : List (String × String)),
      cfg.foldl envStep env = (projList cfg).foldl (fun e p => upsert e p.1 p.2) env := by
  intro cfg
  induction cfg with
  | nil => intro env; rfl
  | cons p rest ih =>
    intro env
    by_cases h1 : p.1 = "source_file"
    · simp [projList, List.filterMap_cons, h1, envStep, ih]
    · by_cases h2 : p.1 = "image" <;> simp [projList, List.filterMap_cons, h1, h2, envStep, ih]

theorem projList_key_shape (cfg : List (String × Val)) :
    ∀ k ∈ (projList cfg).map Prod.fst,
      k = "SPECIAL_SOURCE_FILE" ∨ ∃ x, k = "TEST_" ++ x := by
  intro k hk
  rcases List.mem_map.1 hk with ⟨q, hq, hqe⟩
  rcases List.mem_filterMap.1 hq with ⟨p, _, hpq⟩
  by_cases h1 : p.1 = "source_file"
  · simp [h1] at hpq
    left
    rw [← hqe, ← hpq]
  · by_cases h2 : p.1 = "image"
    · simp [h1, h2] at hpq
    · simp [h1, h2] at hpq
      right
      exact ⟨pyUpper p.1, by rw [← hqe, ← hpq]⟩

/-- Claim C2 (amended): for every test name and config mapping whose
projected keys are pairwise distinct (no two config keys share an
uppercase form and `source_file` appears at most once — always true for a
Python dict unless two keys differ only in case), the execution
environment built by `run_test` is exactly `TS_NAME = name` followed by
one entry per non-`image` config key: `SPECIAL_SOURCE_FILE = str(v)` for
`source_file`, nothing for `image`, and `TEST_<UPPER(k)> = str(v)`
otherwise.  (As stated the claim fails when two keys share an uppercase
form, see the counterexample.) -/
theorem c2_env_projection (name : String) (cfg : List (String × Val))
    (h : ((projList cfg).map Prod.fst).Nodup) :
    buildEnv name cfg = ("TS_NAME", name) :: projList cfg := by
  unfold buildEnv
  rw [envFold_eq_proj_fold]
  rw [foldl_upsert_fresh (projList cfg) [("TS_NAME", name)] h ?fresh]
  · simp
  case fresh =>
    intro k hk
    have hne : ¬ ("TS_NAME" = k) := by
      rcases projList_key_shape cfg k hk with h1 | ⟨x, h1⟩
      · rw [h1]; decide
      · rw [h1]
        intro he
        exact test_prefixed_ne_tsname x he.symm
    simp [alookup, hne]

/-- Witness for C2: the spec's own example.  With
`config = {retries: 3, source_file: "a.yaml"}` the environment is exactly
`TS_NAME`, `TEST_RETRIES=3`, `SPECIAL_SOURCE_FILE=a.yaml`, and it has no
`TEST_SOURCE_FILE` and no `TEST_IMAGE` key. -/
theorem c2_env_projection_witness :
    buildEnv "t" [("retries", Val.int 3), ("source_file", Val.str "a.yaml")] =
      [("TS_NAME", "t"), ("TEST_RETRIES", "3"), ("SPECIAL_SOURCE_FILE", "a.yaml")]
    ∧ alookup (buildEnv "t" [("retries", Val.int 3), ("source_file", Val.str "a.yaml")])
        "TEST_SOURCE_FILE" = none
    ∧ alookup (buildEnv "t" [("retries", Val.int 3), ("source_file", Val.str "a.yaml")])
        "TEST_IMAGE" = none := by
  refine ⟨?_, by decide, by decide⟩
  rw [c2_env_projection "t" _ (by decide)]
  decide

/-- Counterexample to C2 as stated: config keys `a` and `A` both project
to `TEST_A`; the environment binds `TEST_A` to the second value only, so
it does not contain `TEST_A = "1"` for key `a` as the per-key rule
demands. -/
theorem c2_counterexample :
    alookup (buildEnv "t" [("a", Val.int 1), ("A", Val.int 2)]) "TEST_A" = some "2"
    ∧ ("TEST_A", "1") ∉ buildEnv "t" [("a", Val.int 1), ("A", Val.int 2)] := by
  decide

/-! ## Provenance -/

theorem alookup_some_key_mem {α : Type} :
    ∀ (m : List (String × α)) (k : String) (v : α), alookup m k = some v →
      ∃ q ∈ m, q.1 = k := by
  intro m
  induction m with
  | nil => intro k v h; simp [alookup] at h
  | cons p rest ih =>
    intro k v h
    by_cases hp : p.1 = k
    · exact ⟨p, by simp, hp⟩
    · simp [alookup, hp] at h
      rcases ih k v h with ⟨q, hq, hqk⟩
      exact ⟨q, by simp [hq], hqk⟩

theorem mem_entriesFlat_body :
    ∀ (items : List (String × String × TestDecl)) (c : List (String × Nat))
      (e : String × TestDecl), e ∈ entriesFlat c items →
      ∃ it ∈ items,
        e.2.image = it.2.2.image
        ∧ e.2.config = some (upsert (it.2.2.config.getD []) "source_file" (Val.str it.1)) := by
  intro items
  induction items with
  | nil => intro c e h; simp [entriesFlat] at h
  | cons it rest ih =>
    intro c e h
    rcases List.mem_cons.1 h with he | he
    · exact ⟨it, by simp, by rw [he]; rfl, by rw [he]; rfl⟩
    · rcases ih _ e he with ⟨it2, hit2, himg, hcfg⟩
      exact ⟨it2, by simp [hit2], himg, hcfg⟩

theorem mem_flatDecls_path :
    ∀ (sources : List ConfigSource) (it : String × String × TestDecl),
      it ∈ flatDecls sources → ∃ src ∈ sources, it.1 = src.path := by
  intro sources
  induction sources with
  | nil => intro it h; simp [flatDecls] at h
  | cons src rest ih =>
    intro it h
    rcases List.mem_append.1 h with h2 | h2
    · cases hts : src.tests with
      | none => rw [hts] at h2; simp at h2
      | some ds =>
        rw [hts] at h2
        rcases List.mem_map.1 h2 with ⟨d, _, hd⟩
        exact ⟨src, by simp, by rw [← hd]⟩
    · rcases ih it h2 with ⟨src2, hsrc2, hp⟩
      exact ⟨src2, by simp [hsrc2], hp⟩

theorem envFold_special_set :
    ∀ (cfg : List (String × Val)) (env : List (String × String)) (v : Val),
      (∀ p ∈ cfg, p.1 = "source_file" → p.2 = v) →
      alookup env "SPECIAL_SOURCE_FILE" = some v.stringify →
      alookup (cfg.foldl envStep env) "SPECIAL_SOURCE_FILE" = some v.stringify := by
  intro cfg
  induction cfg with
  | nil => intro env v _ henv; exact henv
  | cons p rest ih =>
    intro env v hall henv
    rw [List.foldl_cons]
    have hrest : ∀ q ∈ rest, q.1 = "source_file" → q.2 = v :=
      fun q hq => hall q (List.mem_cons_of_mem p hq)
    by_cases h1 : p.1 = "source_file"
    · have hv : p.2 = v := hall p (by simp) h1
      apply ih _ v hrest
      rw [envStep, if_pos h1, hv]
      exact alookup_upsert_self env _ _
    · by_cases h2 : p.1 = "image"
      · rw [envStep, if_neg h1, if_pos h2]
        exact ih _ v hrest henv
      · apply ih _ v hrest
        rw [envStep, if_neg h1, if_neg h2]
        rw [alookup_upsert_ne env _ _ _ (fun he => test_prefixed_ne_special _ he.symm)]
        exact henv

theorem envFold_special_of_mem :
    ∀ (cfg : List (String × Val)) (env : List (String × String)) (v : Val),
      (∀ p ∈ cfg, p.1 = "source_file" → p.2 = v) →
      (∃ p ∈ cfg, p.1 = "source_file") →
      alookup (cfg.foldl envStep env) "SPECIAL_SOURCE_FILE" = some v.stringify := by
  intro cfg
  induction cfg with
  | nil => intro env v _ hex; simp at hex
  | cons p rest ih =>
    intro env v hall hex
    rw [List.foldl_cons]
    have hrest : ∀ q ∈ rest, q.1 = "source_file" → q.2 = v :=
      fun q hq => hall q (List.mem_cons_of_mem p hq)
    by_cases h1 : p.1 = "source_file"
    · have hv : p.2 = v := hall p (by simp) h1
      apply envFold_special_set rest _ v hrest
      rw [envStep, if_pos h1, hv]
      exact alookup_upsert_self env _ _
    · have hex2 : ∃ q ∈ rest, q.1 = "source_file" := by
        rcases hex with ⟨q, hq, hqk⟩
        rcases List.mem_cons.1 hq with he | he
        · exact absurd hqk (by rw [he]; exact h1)
        · exact ⟨q, he, hqk⟩
      by_cases h2 : p.1 = "image"
      · rw [envStep, if_neg h1, if_pos h2]
        exact ih _ v hrest hex2
      · rw [envStep, if_neg h1, if_neg h2]
        exact ih _ v hrest hex2

/-- Claim C10: provenance always wins.  Every entry of the merged
manifest stems from one (origin path, name, declaration) element of the
iteration stream, and the entry's data is that declaration's own body
with its config's `source_file` unconditionally overwritten by the path
of the file that contributed *that* declaration — so any user-declared
`source_file` value is replaced by the entry's own originating file
path, which is the path of a loaded source.  Consequently, for every
test name, the environment built by `run_test` from that entry's config
binds `SPECIAL_SOURCE_FILE` exactly to the originating file's path,
never to a user-declared value. -/
theorem c10_provenance_wins (sources : List ConfigSource) (p : String × TestDecl)
    (hp : p ∈ load_all_configs sources) :
    ∃ it ∈ flatDecls sources, ∃ src ∈ sources, it.1 = src.path
      ∧ p.2.image = it.2.2.image
      ∧ p.2.config = some (upsert (it.2.2.config.getD []) "source_file" (Val.str it.1))
      ∧ alookup (upsert (it.2.2.config.getD []) "source_file" (Val.str it.1)) "source_file"
          = some (Val.str it.1)
      ∧ ∀ name,
          alookup (buildEnv name (upsert (it.2.2.config.getD []) "source_file" (Val.str it.1)))
            "SPECIAL_SOURCE_FILE" = some it.1 := by
  rw [load_all_configs_eq_entries] at hp
  rcases mem_foldl_upsert _ _ _ hp with h | h
  · simp at h
  · rcases mem_entriesFlat_body _ _ _ h with ⟨it, hit, himg, hcfg⟩
    rcases mem_flatDecls_path _ _ hit with ⟨src, hsrc, hpath⟩
    refine ⟨it, hit, src, hsrc, hpath, himg, hcfg, alookup_upsert_self _ _ _, ?_⟩
    intro name
    unfold buildEnv
    have hall : ∀ q ∈ upsert (it.2.2.config.getD []) "source_file" (Val.str it.1),
        q.1 = "source_file" → q.2 = Val.str it.1 :=
      mem_upsert_key_eq
    have hsome := alookup_upsert_self (it.2.2.config.getD []) "source_file" (Val.str it.1)
    rcases alookup_some_key_mem _ _ _ hsome with ⟨q, hq, hqk⟩
    exact envFold_special_of_mem _ _ (Val.str it.1) hall ⟨q, hq, hqk⟩

/-- Witness for C10: `a.yaml` declares test `t1` with a user-declared
`source_file: b.yaml`, where `b.yaml` is itself a loaded source.  For the
manifest entry of `t1`, the declaration it stems from ties the stored tag
to `a.yaml`, the entry's own originating file, not to the user-declared
(also-loaded) `b.yaml`. -/
theorem c10_provenance_wins_witness :
    ∃ it ∈ flatDecls
        [ConfigSource.mk "a.yaml"
           (some [("t1", ⟨some "i", some [("source_file", Val.str "b.yaml")]⟩)]),
         ConfigSource.mk "b.yaml" (some [("t2", ⟨some "j", none⟩)])],
      ∃ src ∈ [ConfigSource.mk "a.yaml"
           (some [("t1", ⟨some "i", some [("source_file", Val.str "b.yaml")]⟩)]),
         ConfigSource.mk "b.yaml" (some [("t2", ⟨some "j", none⟩)])], it.1 = src.path
      ∧ (TestDecl.mk (some "i") (some [("source_file", Val.str "a.yaml")])).image
          = it.2.2.image
      ∧ (TestDecl.mk (some "i") (some [("source_file", Val.str "a.yaml")])).config
          = some (upsert (it.2.2.config.getD []) "source_file" (Val.str it.1))
      ∧ alookup (upsert (it.2.2.config.getD []) "source_file" (Val.str it.1)) "source_file"
          = some (Val.str it.1)
      ∧ ∀ name,
          alookup (buildEnv name (upsert (it.2.2.config.getD []) "source_file" (Val.str it.1)))
            "SPECIAL_SOURCE_FILE" = some it.1 := by
  exact c10_provenance_wins
    [ConfigSource.mk "a.yaml"
       (some [("t1", ⟨some "i", some [("source_file", Val.str "b.yaml")]⟩)]),
     ConfigSource.mk "b.yaml" (some [("t2", ⟨some "j", none⟩)])]
    ("t1", ⟨some "i", some [("source_file", Val.str "a.yaml")]⟩)
    (by decide)

/-! ## Aggregation -/

theorem combine_foldl_spec {α : Type} :
    ∀ (files : List String) (st : CombineResult α) (fs₀ : List (String × FileData α)),
      files.Nodup → (∀ f ∈ files, alookup st.fs f = alookup fs₀ f) →
      (files.foldl combineStep st).combined
          = st.combined ++ files.flatMap (fun f => parseableSuites (alookup fs₀ f))
      ∧ (files.foldl combineStep st).missingWarnings
          = st.missingWarnings ++ files.filter (fun f => (alookup fs₀ f).isNone) := by
  intro files
  induction files with
  | nil => intro st fs₀ _ _; simp
  | cons f rest ih =>
    intro st fs₀ hnd hagree
    have hf : alookup st.fs f = alookup fs₀ f := hagree f (by simp)
    have hnd2 : f ∉ rest ∧ rest.Nodup := List.nodup_cons.1 hnd
    rw [List.foldl_cons]
    cases hval : alookup fs₀ f with
    | none =>
      rw [hval] at hf
      have hstep : combineStep st f = { st with missingWarnings := st.missingWarnings ++ [f] } := by
        unfold combineStep
        rw [hf]
      rw [hstep]
      have h2 := ih { st with missingWarnings := st.missingWarnings ++ [f] } fs₀ hnd2.2
        (fun g hg => hagree g (by simp [hg]))
      simp [h2.1, h2.2, parseableSuites, hval, List.filter_cons]
    | some fd =>
      cases fd with
      | malformed =>
        rw [hval] at hf
        have hstep : combineStep st f = { st with parseErrors := st.parseErrors ++ [f] } := by
          unfold combineStep
          rw [hf]
        rw [hstep]
        have h2 := ih { st with parseErrors := st.parseErrors ++ [f] } fs₀ hnd2.2
          (fun g hg => hagree g (by simp [hg]))
        simp [h2.1, h2.2, parseableSuites, hval, List.filter_cons]
      | parseable s =>
        rw [hval] at hf
        have hstep : combineStep st f =
            { st with combined := st.combined ++ s, fs := adelete st.fs f } := by
          unfold combineStep
          rw [hf]
        rw [hstep]
        have hagree2 : ∀ g ∈ rest,
            alookup (adelete st.fs f) g = alookup fs₀ g := by
          intro g hg
          have hne : g ≠ f := fun he => hnd2.1 (he ▸ hg)
          rw [alookup_adelete_ne st.fs f g hne]
          exact hagree g (by simp [hg])
        have h2 := ih { st with combined := st.combined ++ s, fs := adelete st.fs f } fs₀
          hnd2.2 hagree2
        simp [h2.1, h2.2, parseableSuites, hval, List.filter_cons]

/-- Claim C5 (amended): for every artifact list without duplicate names,
`combine_reports` never raises, its combined report holds exactly the
suites of the present, parseable artifacts in order, and it logs exactly
one skip warning per listed file that is absent.  (As stated, over
arbitrary lists, the claim fails: a present file listed twice is merged
once and then warned about once, so warnings are not one per absent
file — see the counterexample.) -/
theorem c5_combine_partial {α : Type} (fs : List (String × FileData α)) (files : List String)
    (h : files.Nodup) :
    (combine_reports fs files).combined
        = files.flatMap (fun f => parseableSuites (alookup fs f))
    ∧ (combine_reports fs files).missingWarnings
        = files.filter (fun f => (alookup fs f).isNone) := by
  have h2 := combine_foldl_spec files ⟨fs, [], [], []⟩ fs h (fun f _ => rfl)
  unfold combine_reports
  simpa using h2

/-- Witness for C5: one present parseable artifact, one absent name, one
malformed artifact: the report holds exactly the present artifact's
suites, and exactly the absent name is warned about. -/
theorem c5_combine_partial_witness :
    (combine_reports [("a_report.xml", FileData.parseable [1, 2]),
        ("c_report.xml", (FileData.malformed : FileData Nat))]
      ["a_report.xml", "b_report.xml", "c_report.xml"]).combined = [1, 2]
    ∧ (combine_reports [("a_report.xml", FileData.parseable [1, 2]),
        ("c_report.xml", (FileData.malformed : FileData Nat))]
      ["a_report.xml", "b_report.xml", "c_report.xml"]).missingWarnings
        = ["b_report.xml"] := by
  have h := c5_combine_partial
    [("a_report.xml", FileData.parseable [1, 2]),
     ("c_report.xml", (FileData.malformed : FileData Nat))]
    ["a_report.xml", "b_report.xml", "c_report.xml"] (by decide)
  exact ⟨by rw [h.1]; decide, by rw [h.2]; decide⟩

/-- Counterexample to C5 as stated: with the present file `a` listed
twice (it is deleted after its first merge), two warnings are logged
although only `b` is physically absent. -/
theorem c5_counterexample :
    (combine_reports [("a", FileData.parseable ([0] : List Nat))] ["a", "a", "b"]).missingWarnings
      = ["a", "b"]
    ∧ ["a", "a", "b"].filter
        (fun f => (alookup [("a", FileData.parseable ([0] : List Nat))] f).isNone)
      = ["b"] := by
  decide

theorem combine_foldl_lookup {α : Type} :
    ∀ (files : List String) (st : CombineResult α) (f : String),
      alookup (files.foldl combineStep st).fs f =
        if f ∈ files ∧ isParseableFile (alookup st.fs f) then none
        else alookup st.fs f := by
  intro files
  induction files with
  | nil => intro st f; simp
  | cons g rest ih =>
    intro st f
    rw [List.foldl_cons, ih]
    by_cases hgf : g = f
    · subst hgf
      cases hval : alookup st.fs g with
      | none =>
        have hstep : (combineStep st g).fs = st.fs := by
          unfold combineStep
          rw [hval]
        simp [hstep, hval, isParseableFile]
      | some fd =>
        cases fd with
        | malformed =>
          have hstep : (combineStep st g).fs = st.fs := by
            unfold combineStep
            rw [hval]
          simp [hstep, hval, isParseableFile]
        | parseable s =>
          have hstep : (combineStep st g).fs = adelete st.fs g := by
            unfold combineStep
            rw [hval]
          simp [hstep, hval, isParseableFile, alookup_adelete_self]
    · have hfs : alookup (combineStep st g).fs f = alookup st.fs f := by
        unfold combineStep
        cases hval : alookup st.fs g with
        | none => rfl
        | some fd =>
          cases fd with
          | malformed => rfl
          | parseable s =>
            exact alookup_adelete_ne st.fs g f (fun he => hgf he.symm)
      rw [hfs]
      have hfg : ¬ f = g := fun he => hgf he.symm
      simp [List.mem_cons, hfg]

/-- Claim C6 (amended): for every artifact list not mentioning the
combined report's own file name, every listed artifact that was present
and parseable has been deleted when `combine_reports` returns, and every
listed file that was absent or failed to parse is left untouched.  (As
stated the claim fails when `combined_report.xml` itself is listed: a
malformed `combined_report.xml` is skipped but then overwritten by the
final write — see the counterexample.) -/
theorem c6_artifact_deletion {α : Type} (fs : List (String × FileData α)) (files : List String)
    (f : String) (hf : f ∈ files) (hcr : ¬ f = "combined_report.xml") :
    ((∃ s, alookup fs f = some (FileData.parseable s)) →
      alookup (combine_reports fs files).fs f = none)
    ∧ (alookup fs f = some FileData.malformed →
      alookup (combine_reports fs files).fs f = some FileData.malformed)
    ∧ (alookup fs f = none → alookup (combine_reports fs files).fs f = none) := by
  have hlk : alookup (combine_reports fs files).fs f
      = alookup ((files.foldl combineStep ⟨fs, [], [], []⟩).fs) f := by
    unfold combine_reports
    exact alookup_upsert_ne _ _ _ f hcr
  rw [hlk, combine_foldl_lookup]
  refine ⟨?_, ?_, ?_⟩ <;> intro h
  · rcases h with ⟨s, hs⟩
    simp [hf, hs, isParseableFile]
  · simp [hf, h, isParseableFile]
  · simp [hf, h, isParseableFile]

/-- Witness for C6: the parseable artifact `a` is deleted, the malformed
artifact `m` keeps its content, the absent name `b` stays absent. -/
theorem c6_artifact_deletion_witness :
    alookup (combine_reports [("a", FileData.parseable [5]),
        ("m", (FileData.malformed : FileData Nat))] ["a", "m", "b"]).fs "a" = none
    ∧ alookup (combine_reports [("a", FileData.parseable [5]),
        ("m", (FileData.malformed : FileData Nat))] ["a", "m", "b"]).fs "m"
        = some FileData.malformed
    ∧ alookup (combine_reports [("a", FileData.parseable [5]),
        ("m", (FileData.malformed : FileData Nat))] ["a", "m", "b"]).fs "b" = none := by
  refine ⟨(c6_artifact_deletion _ _ "a" (by decide) (by decide)).1 ⟨[5], by decide⟩,
    (c6_artifact_deletion _ _ "m" (by decide) (by decide)).2.1 (by decide),
    (c6_artifact_deletion _ _ "b" (by decide) (by decide)).2.2 (by decide)⟩

/-- Counterexample to C6 as stated: a malformed `combined_report.xml`
listed as an artifact fails to parse (so must be left untouched by the
claim), yet after the run its content is the freshly written empty
combined report. -/
theorem c6_counterexample :
    alookup [("combined_report.xml", (FileData.malformed : FileData Nat))]
        "combined_report.xml" = some FileData.malformed
    ∧ alookup (combine_reports
          [("combined_report.xml", (FileData.malformed : FileData Nat))]
          ["combined_report.xml"]).fs "combined_report.xml"
        = some (FileData.parseable []) := by
  decide

theorem combine_foldl_no_parseable {α : Type} :
    ∀ (files : List String) (st : CombineResult α),
      (∀ f ∈ files, isParseableFile (alookup st.fs f) = false) →
      (files.foldl combineStep st).combined = st.combined
      ∧ (files.foldl combineStep st).fs = st.fs := by
  intro files
  induction files with
  | nil => intro st _; exact ⟨rfl, rfl⟩
  | cons g rest ih =>
    intro st hall
    rw [List.foldl_cons]
    have hg := hall g (by simp)
    cases hval : alookup st.fs g with
    | none =>
      have hstep : combineStep st g = { st with missingWarnings := st.missingWarnings ++ [g] } := by
        unfold combineStep
        rw [hval]
      rw [hstep]
      exact ih _ (fun f hf => hall f (by simp [hf]))
    | some fd =>
      cases fd with
      | malformed =>
        have hstep : combineStep st g = { st with parseErrors := st.parseErrors ++ [g] } := by
          unfold combineStep
          rw [hval]
        rw [hstep]
        exact ih _ (fun f hf => hall f (by simp [hf]))
      | parseable s =>
        rw [hval] at hg
        simp [isParseableFile] at hg

/-- Claim C7 (amended): aggregation is consuming.  For every artifact
list not mentioning the combined report's own file name, running
`combine_reports` again on the same list right after a first run merges
nothing: the second combined report is exactly empty, because every
artifact merged in the first run was deleted (and unparseable ones fail
to parse again).  (As stated, over arbitrary lists, the claim fails when
`combined_report.xml` is itself listed — see the counterexample.) -/
theorem c7_combine_consuming {α : Type} (fs : List (String × FileData α)) (files : List String)
    (hcr : "combined_report.xml" ∉ files) :
    (combine_reports (combine_reports fs files).fs files).combined = [] := by
  have key : ∀ f ∈ files, isParseableFile (alookup (combine_reports fs files).fs f) = false := by
    intro f hf
    have hne : ¬ f = "combined_report.xml" := fun he => hcr (he ▸ hf)
    have h1 : alookup (combine_reports fs files).fs f
        = alookup ((files.foldl combineStep ⟨fs, [], [], []⟩).fs) f := by
      unfold combine_reports
      exact alookup_upsert_ne _ _ _ f hne
    rw [h1, combine_foldl_lookup]
    by_cases hp : isParseableFile (alookup fs f) = true
    · rw [if_pos (⟨hf, hp⟩ : f ∈ files ∧ isParseableFile (alookup fs f) = true)]
      rfl
    · have hp2 : isParseableFile (alookup fs f) = false := by
        cases hb : isParseableFile (alookup fs f)
        · rfl
        · exact absurd hb hp
      have hncond : ¬ (f ∈ files ∧ isParseableFile (alookup fs f) = true) := by
        intro hc
        rw [hp2] at hc
        exact Bool.false_ne_true hc.2
      rw [if_neg hncond]
      exact hp2
  have h2 := combine_foldl_no_parseable files
    ⟨(combine_reports fs files).fs, [], [], []⟩ (fun f hf => key f hf)
  show ((combine_reports (combine_reports fs files).fs files).combined : List α) = []
  unfold combine_reports
  simpa using h2.1

/-- Witness for C7: one parseable, one malformed, one absent artifact;
the second run right after the first merges nothing. -/
theorem c7_combine_consuming_witness :
    (combine_reports
        (combine_reports [("a", FileData.parseable [7]),
          ("m", (FileData.malformed : FileData Nat))] ["a", "m", "x"]).fs
        ["a", "m", "x"]).combined = [] := by
  exact c7_combine_consuming _ _ (by decide)

/-- Counterexample to C7 as stated: when `combined_report.xml` is itself
in the artifact list, the first run merges it, deletes it, and then
rewrites it, so the second run merges the same suites again instead of
yielding an empty report. -/
theorem c7_counterexample :
    (combine_reports
        (combine_reports [("combined_report.xml", FileData.parseable ([7] : List Nat))]
          ["combined_report.xml"]).fs
        ["combined_report.xml"]).combined = [7] := by
  decide

/-! ## Execution driver and orchestration loop -/

/-- Claim C8: `run_test` raises `ValueError` (the MissingImage error) iff
the image is absent or empty, and in that case it makes no collaborator
call (no pull, no container run) and leaves the reports directory
untouched. -/
theorem c8_missing_image {α : Type} (oracle : Oracle α) (fs : List (String × FileData α))
    (name : String) (image : Option String) (cfg : List (String × Val)) :
    ((run_test oracle fs name image cfg).result = Except.error (TErr.missingImage name)
      ↔ (image = none ∨ image = some ""))
    ∧ ((image = none ∨ image = some "") →
        (run_test oracle fs name image cfg).actions = []
        ∧ (run_test oracle fs name image cfg).fs = fs) := by
  cases image with
  | none => simp [run_test]
  | some img =>
    by_cases h : img = ""
    · subst h
      simp [run_test]
    · cases hst : (oracle img (buildEnv name cfg)).status with
      | success => simp [run_test, h, hst]
      | containerError c => simp [run_test, h, hst]
      | infraFault => simp [run_test, h, hst]

/-- Witness for C8: with the image absent, `run_test` fails with the
missing-image error, performs no collaborator call, and leaves the
reports directory unchanged. -/
theorem c8_missing_image_witness :
    (run_test (fun _ _ => (⟨[], ContStatus.success⟩ : ContOutcome Nat)) [] "t" none []).result
        = Except.error (TErr.missingImage "t")
    ∧ (run_test (fun _ _ => (⟨[], ContStatus.success⟩ : ContOutcome Nat)) [] "t" none []).actions
        = []
    ∧ (run_test (fun _ _ => (⟨[], ContStatus.success⟩ : ContOutcome Nat)) [] "t" none []).fs
        = [] := by
  have h := c8_missing_image (fun _ _ => (⟨[], ContStatus.success⟩ : ContOutcome Nat)) [] "t" none []
  exact ⟨h.1.2 (Or.inl rfl), (h.2 (Or.inl rfl)).1, (h.2 (Or.inl rfl)).2⟩

theorem run_test_ok_name {α : Type} (oracle : Oracle α) (fs : List (String × FileData α))
    (name : String) (image : Option String) (cfg : List (String × Val)) (f : String) :
    (run_test oracle fs name image cfg).result = Except.ok f → f = name ++ "_report.xml" := by
  intro h
  cases image with
  | none => simp [run_test] at h
  | some img =>
    by_cases hi : img = ""
    · subst hi
      simp [run_test] at h
    · cases hst : (oracle img (buildEnv name cfg)).status with
      | success =>
        simp [run_test, hi, hst] at h
        exact h.symm
      | containerError c => simp [run_test, hi, hst] at h
      | infraFault => simp [run_test, hi, hst] at h

theorem exec_foldl_fst {α : Type} (oracle : Oracle α) :
    ∀ (manifest : List (String × TestDecl)) (st : ExecState α),
      ((manifest.foldl (execStep oracle) st).results).map Prod.fst
        = st.results.map Prod.fst ++ manifest.map Prod.fst := by
  intro manifest
  induction manifest with
  | nil => intro st; simp
  | cons t rest ih =>
    intro st
    rw [List.foldl_cons, ih]
    simp [execStep]

theorem exec_foldl_ok_name {α : Type} (oracle : Oracle α) :
    ∀ (manifest : List (String × TestDecl)) (st : ExecState α) (p : String × Except TErr String),
      p ∈ (manifest.foldl (execStep oracle) st).results →
      p ∈ st.results ∨ ∀ f, p.2 = Except.ok f → f = p.1 ++ "_report.xml" := by
  intro manifest
  induction manifest with
  | nil => intro st p h; exact .inl h
  | cons t rest ih =>
    intro st p h
    rcases ih (execStep oracle st t) p h with h2 | h2
    · have hres : (execStep oracle st t).results
          = st.results
            ++ [(t.1, (run_test oracle st.fs t.1 t.2.image (t.2.config.getD [])).result)] := rfl
      rw [hres] at h2
      rcases List.mem_append.1 h2 with h3 | h3
      · exact .inl h3
      · right
        have hp : p = (t.1, (run_test oracle st.fs t.1 t.2.image (t.2.config.getD [])).result) := by
          simpa using h3
        intro f hf
        rw [hp] at hf
        simp at hf
        rw [hp]
        exact run_test_ok_name oracle st.fs t.1 t.2.image (t.2.config.getD []) f hf
    · exact .inr h2

theorem execAll_results_fst {α : Type} (oracle : Oracle α) (fs : List (String × FileData α))
    (manifest : List (String × TestDecl)) :
    (execAll oracle fs manifest).results.map Prod.fst = manifest.map Prod.fst := by
  unfold execAll
  rw [exec_foldl_fst]
  rfl

theorem mem_reportFilesOf (results : List (String × Except TErr String)) (f : String) :
    f ∈ reportFilesOf results ↔ ∃ n, (n, Except.ok f) ∈ results := by
  unfold reportFilesOf
  rw [List.mem_filterMap]
  constructor
  · rintro ⟨p, hp, he⟩
    cases hr : p.2 with
    | ok g =>
      rw [hr] at he
      simp at he
      refine ⟨p.1, ?_⟩
      have : p = (p.1, Except.ok f) := by
        rw [← he, ← hr]
      rwa [← this]
    | error e => rw [hr] at he; simp at he
  · rintro ⟨n, hn⟩
    exact ⟨(n, Except.ok f), hn, rfl⟩

theorem load_all_configs_keys_nodup (sources : List ConfigSource) :
    ((load_all_configs sources).map Prod.fst).Nodup := by
  rw [load_all_configs_eq_entries]
  exact keys_foldl_upsert_nodup _ [] (by simp)

theorem execAll_no_artifact_for_failed {α : Type} (oracle : Oracle α)
    (fs : List (String × FileData α)) (manifest : List (String × TestDecl))
    (hnd : (manifest.map Prod.fst).Nodup) :
    ∀ (n : String) (err : TErr), (n, Except.error err) ∈ (execAll oracle fs manifest).results →
      (n ++ "_report.xml") ∉ reportFilesOf (execAll oracle fs manifest).results := by
  intro n err hmem hin
  rcases (mem_reportFilesOf _ _).1 hin with ⟨m, hm⟩
  have hname := exec_foldl_ok_name oracle manifest ⟨fs, []⟩ (m, Except.ok (n ++ "_report.xml")) hm
  rcases hname with h0 | hok
  · simp at h0
  · have heq : n ++ "_report.xml" = m ++ "_report.xml" := hok _ rfl
    have hnm : n = m := by
      have h2 := congrArg String.data heq
      rw [String.data_append, String.data_append] at h2
      exact String.ext (List.append_cancel_right h2)
    rw [← hnm] at hm
    have hndres : ((execAll oracle fs manifest).results.map Prod.fst).Nodup := by
      rw [execAll_results_fst]
      exact hnd
    have := nodup_keys_eq _ hndres hmem hm
    simp at this

theorem run_unfold {α : Type} (oracle : Oracle α) (fs : List (String × FileData α))
    (s : ConfigSource) (ss : List ConfigSource) :
    run oracle fs (s :: ss) =
      (if (load_all_configs (s :: ss)).isEmpty then Except.ok ⟨fs, [], none⟩
       else if (reportFilesOf (execAll oracle fs (load_all_configs (s :: ss))).results).isEmpty
       then
         Except.ok ⟨(execAll oracle fs (load_all_configs (s :: ss))).fs,
           (execAll oracle fs (load_all_configs (s :: ss))).results, none⟩
       else
         Except.ok ⟨(combine_reports (execAll oracle fs (load_all_configs (s :: ss))).fs
             (reportFilesOf (execAll oracle fs (load_all_configs (s :: ss))).results)).fs,
           (execAll oracle fs (load_all_configs (s :: ss))).results,
           some (combine_reports (execAll oracle fs (load_all_configs (s :: ss))).fs
             (reportFilesOf (execAll oracle fs (load_all_configs (s :: ss))).results))⟩) := rfl

/-- Claim C3: a failure in one test never aborts the orchestration run.
For any collaborator behaviour and any non-empty source set, `run`
returns normally; its recorded outcomes cover every manifest entry in
order (every remaining test is attempted after a failure); a test that
failed contributes no artifact to the collected report files; and
whenever any artifacts were collected the run still proceeds to
aggregation. -/
theorem c3_failure_isolated {α : Type} (oracle : Oracle α) (fs : List (String × FileData α))
    (sources : List ConfigSource) (hne : sources ≠ []) :
    ∃ st : RunState α, run oracle fs sources = Except.ok st
      ∧ st.executed.map Prod.fst = (load_all_configs sources).map Prod.fst
      ∧ (∀ (n : String) (err : TErr), (n, Except.error err) ∈ st.executed →
          (n ++ "_report.xml") ∉ reportFilesOf st.executed)
      ∧ (reportFilesOf st.executed ≠ [] → st.combined ≠ none) := by
  cases sources with
  | nil => exact absurd rfl hne
  | cons s ss =>
    rw [run_unfold]
    by_cases hmem : (load_all_configs (s :: ss)).isEmpty
    · rw [if_pos hmem]
      have hm : load_all_configs (s :: ss) = [] := by simpa using hmem
      refine ⟨⟨fs, [], none⟩, rfl, by simp [hm], ?_, ?_⟩
      · intro n err h
        simp at h
      · intro h
        simp [reportFilesOf] at h
    · rw [if_neg hmem]
      by_cases hfe :
          (reportFilesOf (execAll oracle fs (load_all_configs (s :: ss))).results).isEmpty
      · rw [if_pos hfe]
        refine ⟨_, rfl, execAll_results_fst oracle fs _,
          execAll_no_artifact_for_failed oracle fs _ (load_all_configs_keys_nodup _), ?_⟩
        intro h
        exact absurd (by simpa using hfe) h
      · rw [if_neg hfe]
        refine ⟨_, rfl, execAll_results_fst oracle fs _,
          execAll_no_artifact_for_failed oracle fs _ (load_all_configs_keys_nodup _), ?_⟩
        intro _
        simp

/-- Witness for C3: three declared tests, the middle one with no `image`.
The run returns normally, all three outcomes are recorded, the failed
test has no artifact, and aggregation still happens. -/
theorem c3_failure_isolated_witness :
    ∃ st : RunState String,
      run (fun img env => ⟨[((alookup env "TS_NAME").getD "" ++ "_report.xml",
              FileData.parseable [img])], ContStatus.success⟩) []
          [⟨"s.yaml", some [("t1", ⟨some "i1", none⟩), ("t2", ⟨none, none⟩),
            ("t3", ⟨some "i3", none⟩)]⟩]
        = Except.ok st
      ∧ st.executed.map Prod.fst
          = (load_all_configs [⟨"s.yaml", some [("t1", ⟨some "i1", none⟩), ("t2", ⟨none, none⟩),
              ("t3", ⟨some "i3", none⟩)]⟩]).map Prod.fst
      ∧ (∀ (n : String) (err : TErr), (n, Except.error err) ∈ st.executed →
          (n ++ "_report.xml") ∉ reportFilesOf st.executed)
      ∧ (reportFilesOf st.executed ≠ [] → st.combined ≠ none) := by
  exact c3_failure_isolated
    (fun img env => ⟨[((alookup env "TS_NAME").getD "" ++ "_report.xml",
        FileData.parseable [img])], ContStatus.success⟩) []
    [⟨"s.yaml", some [("t1", ⟨some "i1", none⟩), ("t2", ⟨none, none⟩),
      ("t3", ⟨some "i3", none⟩)]⟩]
    (by simp)

/-- Claim C9: a manifest with zero tests ends the run cleanly with the
reports directory untouched (no combined report written) and nothing
executed; and whenever no artifacts were collected (for instance because
every test failed), aggregation is skipped entirely, again without
error. -/
theorem c9_empty_cases {α : Type} (oracle : Oracle α) (fs : List (String × FileData α))
    (sources : List ConfigSource) (hne : sources ≠ []) :
    ∃ st : RunState α, run oracle fs sources = Except.ok st
      ∧ (load_all_configs sources = [] → st.fs = fs ∧ st.executed = [] ∧ st.combined = none)
      ∧ (reportFilesOf st.executed = [] → st.combined = none) := by
  cases sources with
  | nil => exact absurd rfl hne
  | cons s ss =>
    rw [run_unfold]
    by_cases hmem : (load_all_configs (s :: ss)).isEmpty
    · rw [if_pos hmem]
      exact ⟨⟨fs, [], none⟩, rfl, fun _ => ⟨rfl, rfl, rfl⟩, fun _ => rfl⟩
    · rw [if_neg hmem]
      by_cases hfe :
          (reportFilesOf (execAll oracle fs (load_all_configs (s :: ss))).results).isEmpty
      · rw [if_pos hfe]
        refine ⟨_, rfl, ?_, fun _ => rfl⟩
        intro hm
        exact absurd (by simp [hm] : (load_all_configs (s :: ss)).isEmpty) hmem
      · rw [if_neg hfe]
        refine ⟨_, rfl, ?_, ?_⟩
        · intro hm
          exact absurd (by simp [hm] : (load_all_configs (s :: ss)).isEmpty) hmem
        · intro h
          exact absurd (by simp [h] : (reportFilesOf
            (execAll oracle fs (load_all_configs (s :: ss))).results).isEmpty) hfe

/-- Witness for C9: one YAML source with no `tests` section: the run ends
cleanly, nothing is executed, nothing is written, aggregation is
skipped. -/
theorem c9_empty_cases_witness :
    ∃ st : RunState Nat,
      run (fun _ _ => (⟨[], ContStatus.success⟩ : ContOutcome Nat)) []
          [⟨"empty.yaml", none⟩] = Except.ok st
      ∧ (load_all_configs [⟨"empty.yaml", none⟩] = [] →
          st.fs = [] ∧ st.executed = [] ∧ st.combined = none)
      ∧ (reportFilesOf st.executed = [] → st.combined = none) := by
  exact c9_empty_cases (fun _ _ => (⟨[], ContStatus.success⟩ : ContOutcome Nat)) []
    [⟨"empty.yaml", none⟩] (by simp)

end Grmp

section SanityChecks
open Grmp

example : pyUpper "retries" = "RETRIES" := by decide

example :
    ((run (fun img env => ⟨[((alookup env "TS_NAME").getD "" ++ "_report.xml",
          FileData.parseable [img])], ContStatus.success⟩) []
        [⟨"s.yaml", some [("t1", ⟨some "i1", none⟩), ("t2", ⟨none, none⟩),
          ("t3", ⟨some "i3", none⟩)]⟩]).toOption.map
      (fun st => st.combined.map (fun c => c.combined))) = some (some ["i1", "i3"]) := by
  decide

example :
    buildEnv "t" [("retries", .int 3), ("source_file", .str "a.yaml")] =
      [("TS_NAME", "t"), ("TEST_RETRIES", "3"), ("SPECIAL_SOURCE_FILE", "a.yaml")] := by
  decide

example :
    load_all_configs
      [⟨"f1.yaml", some [("a", ⟨some "img1", none⟩)]⟩,
       ⟨"f2.yaml", some [("a", ⟨some "img2", none⟩)]⟩] =
      [("a", ⟨some "img1", some [("source_file", .str "f1.yaml")]⟩),
       ("a-2", ⟨some "img2", some [("source_file", .str "f2.yaml")]⟩)] := by
  decide

example :
    (load_all_configs
      [⟨"f1.yaml", some [("a", ⟨some "img1", none⟩)]⟩,
       ⟨"f2.yaml", some [("a", ⟨some "img2", none⟩), ("a-2", ⟨some "img3", none⟩)]⟩]).length
      = 2 := by
  decide

end SanityChecks
